import Mathlib

/-!
# tile_display_window: a shallow embedding

Embedding of `src/tile_display_window.h` and `src/tile_display_window.cpp`.

* `float` members are binary32 values, kept exactly as `mantissa * 2 ^ exponent`
  (or NaN / an infinity); arithmetic on them rounds to nearest-even with a
  24 bit significand, as the hardware does (`FLT_EVAL_METHOD == 0`).  A
  `float -> int` conversion that C++ leaves undefined yields `none`.
* `int` values are integers and `/` on `int` is `Int.tdiv`.  The one product
  of the source, a cell coordinate chosen by the caller times the pixel size
  of a cell, is taken in 32 bits (`wrap_int`); the sizes the collaborators
  report are screen-sized and their differences and quotients stay in range.
* Calls into the renderer, the input layer and the display are recorded, in
  program order, as a list of `Event`s; what those collaborators hand back
  (tile size, projected window size, the next input action) is an input of the
  model.  The renderer pointer `tilecontext` is an input of every call (null or
  not) and is taken not to change while one call runs.
* `DEFAULT_TILESET_ZOOM`, declared outside these sources, is a parameter.
* A `query` whose described input never yields an action other than
  `"TIMEOUT"` does not return; exceptions are not modelled.
-/

namespace TileDisplay

/-! ## binary32 -/

/-- A binary32 value: NaN, an infinity, or the finite number `m * 2 ^ e`.
The sign of a zero is not tracked (nothing below divides). -/
inductive F32 where
  | nan : F32
  | inf (negative : Bool) : F32
  | fin (m : Int) (e : Int) : F32
deriving DecidableEq

namespace F32

/-- The rational number a finite `m * 2 ^ e` stands for. -/
def rat (m e : Int) : ℚ := (m : ℚ) * (2 : ℚ) ^ e

/-- Bit length, with fuel: `bitLengthAux n n` is the number of binary digits of `n`. -/
def bitLengthAux : Nat → Nat → Nat
  | 0, _ => 0
  | fuel + 1, n => if n = 0 then 0 else bitLengthAux fuel (n / 2) + 1

/-- Number of binary digits of `n` (`0` for `0`). -/
def bitLength (n : Nat) : Nat := bitLengthAux n n

/-- Assemble a float from a sign, a significand and an exponent; the result
is an infinity once its magnitude `q * 2 ^ e` reaches `2 ^ 128`. -/
def pack (negative : Bool) (q : Nat) (e : Int) : F32 :=
  let over : Bool := if e ≤ 128 then decide (2 ^ (128 - e).toNat ≤ q) else decide (q ≠ 0)
  if over then inf negative
  else fin (if negative then -(q : Int) else (q : Int)) e

/-- Round `m * 2 ^ e` by dropping the `k` low bits of the significand (none
when `k ≤ 0`), to nearest, ties to even. -/
def roundAt (m e k : Int) : F32 :=
  let n : Nat := m.natAbs
  if k ≤ 0 then pack (decide (m < 0)) n e
  else
    let d : Nat := 2 ^ k.toNat
    let q : Nat := n / d
    let r : Nat := n % d
    pack (decide (m < 0)) (if d < 2 * r ∨ (2 * r = d ∧ q % 2 = 1) then q + 1 else q) (e + k)

/-- Round the exact number `m * 2 ^ e` to binary32: 24 significant bits, least
exponent `-149`, ties to even, and an infinity once the rounded magnitude
reaches `2 ^ 128`. -/
def round (m e : Int) : F32 :=
  roundAt m e (max ((bitLength m.natAbs : Int) - 24) (-149 - e))

/-- Conversion `int -> float`. -/
def ofInt (i : Int) : F32 := round i 0

/-- The product `a * b` of two floats. -/
def mul : F32 → F32 → F32
  | nan, _ => nan
  | _, nan => nan
  | inf s, inf t => inf (s != t)
  | inf s, fin m _ => if m = 0 then nan else inf (s != decide (m < 0))
  | fin m _, inf t => if m = 0 then nan else inf (decide (m < 0) != t)
  | fin m1 e1, fin m2 e2 => round (m1 * m2) (e1 + e2)

/-- The comparison `a < b` of two floats (false as soon as one is NaN). -/
def lt : F32 → F32 → Bool
  | nan, _ => false
  | _, nan => false
  | inf s, inf t => s && !t
  | inf s, fin _ _ => s
  | fin _ _, inf t => !t
  | fin m1 e1, fin m2 e2 =>
      let e := min e1 e2
      decide (m1 * 2 ^ (e1 - e).toNat < m2 * 2 ^ (e2 - e).toNat)

/-- Conversion `static_cast<int>( f )`: the fractional part is discarded
(truncation toward zero).  C++ leaves the conversion undefined when the
truncated value does not fit an `int` (and for NaN and the infinities): that is
`none`. -/
def toInt : F32 → Option Int
  | fin m e =>
      let t : Int := if 0 ≤ e then m * 2 ^ e.toNat else m.tdiv (2 ^ (-e).toNat)
      if -2 ^ 31 ≤ t ∧ t < 2 ^ 31 then some t else none
  | _ => none

end F32

/-- The function `std::clamp( v, lo, hi )` on floats. -/
def clamp (v lo hi : F32) : F32 :=
  if F32.lt v lo then lo else if F32.lt hi v then hi else v

/-! ## Data -/

/-- The colour record `SDL_Color`: four `uint8_t` channels. -/
structure SDL_Color where
  r : Fin 256
  g : Fin 256
  b : Fin 256
  a : Fin 256
deriving DecidableEq

/-- A single tile layer: `tile_id`, optional `tint`, `rotation` (default `0`). -/
structure tile_display_layer where
  tile_id : String
  tint : Option SDL_Color := none
  rotation : Int := 0
deriving DecidableEq

/-- A pixel position `point( x, y )`. -/
structure point where
  x : Int
  y : Int
deriving DecidableEq

/-- A position `tripoint( x, y, z )`. -/
structure tripoint where
  x : Int
  y : Int
  z : Int
deriving DecidableEq

/-- The tile category handed to the tile search; the adapter only uses `C_NONE`. -/
inductive TILE_CATEGORY where
  | C_NONE : TILE_CATEGORY
deriving DecidableEq

/-- The light level handed to the draw primitive; the adapter only uses `BRIGHT`. -/
inductive lit_level where
  | BRIGHT : lit_level
deriving DecidableEq

/-- The aggregate `tile_search_params{ id, category, subcategory, subtile, rota }`. -/
structure tile_search_params where
  id : String
  category : TILE_CATEGORY
  subcategory : String
  subtile : Int
  rota : Int
deriving DecidableEq

/-- Which statement of the source wrote the renderer's draw scale: the per-frame
push inside the loop of `query`, or a write-back of `original_zoom_`
(end of `query`, `clear`, destructor). -/
inductive scale_write where
  | frame : scale_write
  | restore : scale_write
deriving DecidableEq

/-- One observable step of the window, in program order.  All but
`save_original_zoom` are calls into a collaborator; `save_original_zoom` marks
the assignment `original_zoom_ = ...; saved_original_zoom_ = true` of `query`,
so that captures and write-backs can be paired up in a trace. -/
inductive Event where
  | register_action (name : String) : Event
  | set_timeout (ms : Int) : Event
  | save_original_zoom (v : F32) : Event
  | set_draw_scale (site : scale_write) (scale : Option Int) : Event
  | idle_animations_set_enabled (enabled : Bool) : Event
  | idle_animations_prepare_for_redraw : Event
  | draw_from_id_string (tile : tile_search_params) (pos : tripoint)
      (bg_color : Option SDL_Color) (tint : Option SDL_Color) (ll : lit_level)
      (apply_night_vision : Bool) (overlay_count : Int) (as_independent : Bool)
      (height_3d : Int) : Event
  | refresh_display : Event
  | handle_input (action : String) : Event
deriving DecidableEq

/-- Modelled from the spec: the renderer `cata_tiles` (not among the sources),
reduced to the one piece of state the window writes, its integer draw scale
("get/set integer draw-scale").  `none` stands for a scale written from an
undefined `float -> int` conversion. -/
structure cata_tiles where
  draw_scale : Option Int
deriving DecidableEq

/-- Modelled from the spec: the effect of one recorded call on the renderer;
only `set_draw_scale` changes the draw scale. -/
def cata_tiles.step (ct : cata_tiles) : Event → cata_tiles
  | Event.set_draw_scale _ scale => { ct with draw_scale := scale }
  | _ => ct

/-- The renderer after a whole trace of calls. -/
def cata_tiles.after (ct : cata_tiles) (events : List Event) : cata_tiles :=
  events.foldl cata_tiles.step ct

/-- The class `tile_display_window` (its data members). -/
structure tile_display_window where
  layers_ : List tile_display_layer := []
  zoom_ : F32 := F32.fin 1 0
  pos_x_ : Int := -1
  pos_y_ : Int := -1
  original_zoom_ : F32 := F32.fin 0 0
  saved_original_zoom_ : Bool := false
deriving DecidableEq

/-- The constant `MIN_ZOOM = 0.25f`. -/
def MIN_ZOOM : F32 := F32.fin 1 (-2)

/-- The constant `MAX_ZOOM = 4.0f`. -/
def MAX_ZOOM : F32 := F32.fin 1 2

/-- The constant `DEFAULT_ZOOM = 1.0f`. -/
def DEFAULT_ZOOM : F32 := F32.fin 1 0

/-- The constant `ANIMATION_TIMEOUT_MS = 125`. -/
def ANIMATION_TIMEOUT_MS : Int := 125

/-- What the environment holds when `query` starts: the projected window size
and the terminal grid size (read once, before the loop). -/
structure query_entry where
  window_width : Int
  window_height : Int
  TERMX : Int
  TERMY : Int
deriving DecidableEq

/-- What the collaborators hand back during one iteration of the loop of
`query`: the tile size after the scale push, the projected window size, the
`ANIMATIONS` option and the result of `handle_input`. -/
structure frame_input where
  t_width : Int
  t_height : Int
  window_width : Int
  window_height : Int
  animations : Bool
  action : String
deriving DecidableEq

/-- A 32 bit `int` result: the value is kept when it lies in
`[-2 ^ 31, 2 ^ 31)` and wraps around modulo `2 ^ 32` otherwise (what the
two's-complement arithmetic of the build targets yields where C++ leaves signed
overflow undefined). -/
def wrap_int (x : Int) : Int := (x + 2 ^ 31) % 2 ^ 32 - 2 ^ 31

/-! ## The adapter -/

/-- The method `tile_display_adapter::draw_tile_layer`. -/
def draw_tile_layer (tile_id : String) (p : point) (tint : Option SDL_Color)
    (rotation : Int) : List Event :=
  let height_3d : Int := 0
  let tile : tile_search_params := ⟨tile_id, TILE_CATEGORY.C_NONE, "", -1, rotation⟩
  [Event.draw_from_id_string tile ⟨p.x, p.y, 0⟩ none tint lit_level.BRIGHT false 0 true height_3d]

/-- The method `tile_display_adapter::advance_animation_frame`; `animations` is
the value of `get_option<bool>( "ANIMATIONS" )`. -/
def advance_animation_frame (animations : Bool) : List Event :=
  [Event.idle_animations_set_enabled animations, Event.idle_animations_prepare_for_redraw]

/-! ## The window -/

namespace tile_display_window

/-- The destructor: the events it causes; `tilecontext` tells whether the
global renderer pointer is non-null. -/
def destroy (tilecontext : Bool) (w : tile_display_window) : List Event :=
  if w.saved_original_zoom_ && tilecontext then
    [Event.set_draw_scale scale_write.restore (F32.toInt w.original_zoom_)]
  else []

/-- The method `set_position( x, y )`. -/
def set_position (w : tile_display_window) (x y : Int) : tile_display_window :=
  { w with pos_x_ := x, pos_y_ := y }

/-- The method `clear_layers()`. -/
def clear_layers (w : tile_display_window) : tile_display_window :=
  { w with layers_ := [] }

/-- The method `add_layer( const tile_display_layer & )`. -/
def add_layer (w : tile_display_window) (layer : tile_display_layer) : tile_display_window :=
  { w with layers_ := w.layers_ ++ [layer] }

/-- The method `add_layer( const std::string & )`. -/
def add_layer_id (w : tile_display_window) (tile_id : String) : tile_display_window :=
  { w with layers_ := w.layers_ ++ [{ tile_id := tile_id }] }

/-- The method `add_layer_with_tint( tile_id, r, g, b, a )`. -/
def add_layer_with_tint (w : tile_display_window) (tile_id : String) (r g b a : Fin 256) :
    tile_display_window :=
  let tint : SDL_Color := ⟨r, g, b, a⟩
  { w with layers_ := w.layers_ ++ [{ tile_id := tile_id, tint := some tint, rotation := 0 }] }

/-- The method `add_layer_rotated( tile_id, rotation )`. -/
def add_layer_rotated (w : tile_display_window) (tile_id : String) (rotation : Int) :
    tile_display_window :=
  { w with layers_ := w.layers_ ++ [{ tile_id := tile_id, tint := none, rotation := rotation }] }

/-- The method `add_layer_full( tile_id, r, g, b, a, rotation )`. -/
def add_layer_full (w : tile_display_window) (tile_id : String) (r g b a : Fin 256)
    (rotation : Int) : tile_display_window :=
  let tint : SDL_Color := ⟨r, g, b, a⟩
  { w with layers_ := w.layers_ ++ [{ tile_id := tile_id, tint := some tint, rotation := rotation }] }

/-- The method `set_zoom( zoom_level )`. -/
def set_zoom (w : tile_display_window) (zoom_level : F32) : tile_display_window :=
  { w with zoom_ := clamp zoom_level MIN_ZOOM MAX_ZOOM }

/-- The method `draw_tiles( pixel_pos )`: the draw calls it issues. -/
def draw_tiles (tilecontext : Bool) (w : tile_display_window) (pixel_pos : point) : List Event :=
  if !tilecontext then []
  else w.layers_.flatMap
    (fun layer => draw_tile_layer layer.tile_id pixel_pos layer.tint layer.rotation)

/-- The pixel position computed in one iteration of the loop of `query`
(`pixel_x`, `pixel_y`); `/` of C++ is `Int.tdiv`, and the product of the two
`int`s of an explicit axis is a 32 bit product. -/
def pixel_position (w : tile_display_window) (termx_pixels termy_pixels : Int)
    (i : frame_input) : point :=
  let pixel_x : Int :=
    if w.pos_x_ < 0 then (i.window_width - i.t_width).tdiv 2
    else wrap_int (w.pos_x_ * termx_pixels)
  let pixel_y : Int :=
    if w.pos_y_ < 0 then (i.window_height - i.t_height).tdiv 2
    else wrap_int (w.pos_y_ * termy_pixels)
  ⟨pixel_x, pixel_y⟩

/-- One iteration of the `do ... while` loop of `query`, up to and including
`ctxt.handle_input()`. -/
def query_frame (DEFAULT_TILESET_ZOOM : Int) (w : tile_display_window)
    (termx_pixels termy_pixels : Int) (i : frame_input) : List Event :=
  [Event.set_draw_scale scale_write.frame
      (F32.toInt (F32.mul w.zoom_ (F32.ofInt DEFAULT_TILESET_ZOOM)))]
    ++ advance_animation_frame i.animations
    ++ draw_tiles true w (pixel_position w termx_pixels termy_pixels i)
    ++ [Event.refresh_display, Event.handle_input i.action]

/-- The `do ... while( action == "TIMEOUT" )` loop of `query`: the events of the
iterations run and the action that ended the loop; `none` when every described
iteration timed out, so that the loop is still running. -/
def query_loop (DEFAULT_TILESET_ZOOM : Int) (w : tile_display_window)
    (termx_pixels termy_pixels : Int) : List frame_input → List Event × Option String
  | [] => ([], none)
  | i :: rest =>
      let frame := query_frame DEFAULT_TILESET_ZOOM w termx_pixels termy_pixels i
      if i.action = "TIMEOUT" then
        let r := query_loop DEFAULT_TILESET_ZOOM w termx_pixels termy_pixels rest
        (frame ++ r.1, r.2)
      else (frame, some i.action)

/-- What a call of `query` leaves behind: the window, the events caused, and
the returned string (`none`: the call has not returned). -/
structure query_result where
  window : tile_display_window
  events : List Event
  returned : Option String
deriving DecidableEq

/-- The method `query()`.  `DEFAULT_TILESET_ZOOM` is the renderer's constant of
that name (declared outside the sources at hand), `tilecontext` tells whether
the global renderer pointer is non-null. -/
def query (DEFAULT_TILESET_ZOOM : Int) (tilecontext : Bool) (w : tile_display_window)
    (entry : query_entry) (inputs : List frame_input) : query_result :=
  if !tilecontext then { window := w, events := [], returned := some "ERROR" }
  else
    -- Save original zoom
    let w1 : tile_display_window :=
      if !w.saved_original_zoom_ then
        { w with original_zoom_ := F32.ofInt DEFAULT_TILESET_ZOOM, saved_original_zoom_ := true }
      else w
    let save : List Event :=
      if !w.saved_original_zoom_ then
        [Event.save_original_zoom (F32.ofInt DEFAULT_TILESET_ZOOM)]
      else []
    -- Set up input context
    let setup : List Event :=
      [Event.register_action "QUIT", Event.register_action "CONFIRM",
       Event.register_action "LEFT", Event.register_action "RIGHT",
       Event.register_action "UP", Event.register_action "DOWN",
       Event.set_timeout ANIMATION_TIMEOUT_MS]
    let termx_pixels : Int := entry.window_width.tdiv entry.TERMX
    let termy_pixels : Int := entry.window_height.tdiv entry.TERMY
    let loop := query_loop DEFAULT_TILESET_ZOOM w1 termx_pixels termy_pixels inputs
    match loop.2 with
    | none => { window := w1, events := save ++ setup ++ loop.1, returned := none }
    | some action =>
        -- Restore original zoom
        if w1.saved_original_zoom_ then
          { window := { w1 with saved_original_zoom_ := false },
            events := save ++ setup ++ loop.1 ++
              [Event.set_draw_scale scale_write.restore (F32.toInt w1.original_zoom_)],
            returned := some action }
        else { window := w1, events := save ++ setup ++ loop.1, returned := some action }

/-- What a call of `clear` leaves behind: the window and the events caused. -/
structure clear_result where
  window : tile_display_window
  events : List Event
deriving DecidableEq

/-- The method `clear()`. -/
def clear (tilecontext : Bool) (w : tile_display_window) : clear_result :=
  let w1 : tile_display_window :=
    { w with layers_ := [], zoom_ := DEFAULT_ZOOM, pos_x_ := -1, pos_y_ := -1 }
  if w1.saved_original_zoom_ && tilecontext then
    { window := { w1 with saved_original_zoom_ := false },
      events := [Event.set_draw_scale scale_write.restore (F32.toInt w1.original_zoom_)] }
  else { window := w1, events := [] }

end tile_display_window

/-! ## Sequences of calls -/

/-- A call of one public operation of the window, with its arguments; a `query`
also carries what its collaborators hand back while it runs. -/
inductive Op where
  | set_position (x y : Int) : Op
  | clear_layers : Op
  | add_layer (layer : tile_display_layer) : Op
  | add_layer_id (tile_id : String) : Op
  | add_layer_with_tint (tile_id : String) (r g b a : Fin 256) : Op
  | add_layer_rotated (tile_id : String) (rotation : Int) : Op
  | add_layer_full (tile_id : String) (r g b a : Fin 256) (rotation : Int) : Op
  | set_zoom (zoom_level : F32) : Op
  | query (entry : query_entry) (inputs : List frame_input) : Op
  | clear : Op
deriving DecidableEq

/-- Run one call: the window afterwards and the events caused; `none` when the
call is a `query` that does not return. -/
def Op.call (DEFAULT_TILESET_ZOOM : Int) (tilecontext : Bool) (w : tile_display_window) :
    Op → Option (tile_display_window × List Event)
  | Op.set_position x y => some (w.set_position x y, [])
  | Op.clear_layers => some (w.clear_layers, [])
  | Op.add_layer layer => some (w.add_layer layer, [])
  | Op.add_layer_id tile_id => some (w.add_layer_id tile_id, [])
  | Op.add_layer_with_tint tile_id r g b a => some (w.add_layer_with_tint tile_id r g b a, [])
  | Op.add_layer_rotated tile_id rotation => some (w.add_layer_rotated tile_id rotation, [])
  | Op.add_layer_full tile_id r g b a rotation =>
      some (w.add_layer_full tile_id r g b a rotation, [])
  | Op.set_zoom zoom_level => some (w.set_zoom zoom_level, [])
  | Op.query entry inputs =>
      let r := w.query DEFAULT_TILESET_ZOOM tilecontext entry inputs
      match r.returned with
      | none => none
      | some _ => some (r.window, r.events)
  | Op.clear => some ((w.clear tilecontext).window, (w.clear tilecontext).events)

/-- Run a sequence of calls, one after the other; each call comes with the
state of the renderer pointer (non-null or null) at the time it is made. -/
def run (DEFAULT_TILESET_ZOOM : Int) :
    List (Bool × Op) → tile_display_window → Option (tile_display_window × List Event)
  | [], w => some (w, [])
  | (tilecontext, op) :: rest, w =>
      match op.call DEFAULT_TILESET_ZOOM tilecontext w with
      | none => none
      | some (w1, events) =>
          match run DEFAULT_TILESET_ZOOM rest w1 with
          | none => none
          | some (w2, later) => some (w2, events ++ later)

/-- The whole life of a window: construction, a sequence of calls, destruction.
The result is the trace of events, `none` when some `query` does not return. -/
def lifetime (DEFAULT_TILESET_ZOOM : Int) (calls : List (Bool × Op))
    (tilecontext_at_end : Bool) : Option (List Event) :=
  match run DEFAULT_TILESET_ZOOM calls {} with
  | none => none
  | some (w, events) => some (events ++ w.destroy tilecontext_at_end)

/-- Whether the described input lets a call return: a `query` returns at once
without a renderer, and otherwise needs an iteration whose action is not
`"TIMEOUT"`; every other call returns. -/
def Op.returns (tilecontext : Bool) : Op → Bool
  | Op.query _ inputs => !tilecontext || inputs.any (fun i => decide (i.action ≠ "TIMEOUT"))
  | _ => true

/-! ## Reading traces -/

/-- Captures and write-backs pair up along a trace: walking the trace with the
captured value still owed, a capture needs nothing owed, a write-back needs a
value owed and writes exactly its conversion to `int`, and nothing is owed at
the end. -/
def restores_paired : Option F32 → List Event → Bool
  | owed, [] => owed.isNone
  | owed, Event.save_original_zoom v :: rest => owed.isNone && restores_paired (some v) rest
  | owed, Event.set_draw_scale scale_write.restore scale :: rest =>
      match owed with
      | none => false
      | some v => decide (scale = F32.toInt v) && restores_paired none rest
  | owed, _ :: rest => restores_paired owed rest

/-- Events that neither capture the scale nor write it back. -/
def Event.is_neutral : Event → Bool
  | Event.save_original_zoom _ => false
  | Event.set_draw_scale scale_write.restore _ => false
  | _ => true

/-- The draw scales pushed by the frames of a trace (the writes made inside the
loop of `query`), in order. -/
def frame_scales : List Event → List (Option Int)
  | [] => []
  | Event.set_draw_scale scale_write.frame scale :: rest => scale :: frame_scales rest
  | _ :: rest => frame_scales rest

/-- The frame scale as the specification words it: `round(zoom * baseline_unit)`. -/
def round_scale (zoom : ℚ) (baseline_unit : Int) : Int :=
  round (zoom * (baseline_unit : ℚ))

/-- The pixel positions of the draw calls of a trace, in order. -/
def draw_positions : List Event → List point
  | [] => []
  | Event.draw_from_id_string _ pos _ _ _ _ _ _ _ :: rest => ⟨pos.x, pos.y⟩ :: draw_positions rest
  | _ :: rest => draw_positions rest

/-- The iterations of the loop of `query` that are run on the described input:
every one up to and including the first whose action is not `"TIMEOUT"`. -/
def frames_run : List frame_input → List frame_input
  | [] => []
  | i :: rest => if i.action = "TIMEOUT" then i :: frames_run rest else [i]

/-- The layers left after a sequence of calls, as the interface describes
them: an append adds at the end, `clear_layers` and `clear` empty the sequence,
everything else leaves it alone. -/
def layers_after : List tile_display_layer → List (Bool × Op) → List tile_display_layer
  | acc, [] => acc
  | acc, (_, Op.add_layer layer) :: rest => layers_after (acc ++ [layer]) rest
  | acc, (_, Op.add_layer_id tile_id) :: rest =>
      layers_after (acc ++ [⟨tile_id, none, 0⟩]) rest
  | acc, (_, Op.add_layer_with_tint tile_id r g b a) :: rest =>
      layers_after (acc ++ [⟨tile_id, some ⟨r, g, b, a⟩, 0⟩]) rest
  | acc, (_, Op.add_layer_rotated tile_id rotation) :: rest =>
      layers_after (acc ++ [⟨tile_id, none, rotation⟩]) rest
  | acc, (_, Op.add_layer_full tile_id r g b a rotation) :: rest =>
      layers_after (acc ++ [⟨tile_id, some ⟨r, g, b, a⟩, rotation⟩]) rest
  | _, (_, Op.clear_layers) :: rest => layers_after [] rest
  | _, (_, Op.clear) :: rest => layers_after [] rest
  | acc, _ :: rest => layers_after acc rest

/-- The draw call the renderer receives for one layer drawn at a pixel position:
the layer's `tile_id`, `tint` and `rotation`, in a neutral context, at full
brightness. -/
def layer_draw_call (l : tile_display_layer) (p : point) : Event :=
  Event.draw_from_id_string ⟨l.tile_id, TILE_CATEGORY.C_NONE, "", -1, l.rotation⟩ ⟨p.x, p.y, 0⟩
    none l.tint lit_level.BRIGHT false 0 true 0

/-- The calls with which `query` sets up its input context: six registered
actions and the idle timeout. -/
def query_setup : List Event :=
  [Event.register_action "QUIT", Event.register_action "CONFIRM",
   Event.register_action "LEFT", Event.register_action "RIGHT",
   Event.register_action "UP", Event.register_action "DOWN", Event.set_timeout 125]

/-- A float compared with a rational bound: `v < q` (never for NaN). -/
def F32.below : F32 → ℚ → Prop
  | F32.nan, _ => False
  | F32.inf negative, _ => negative = true
  | F32.fin m e, q => F32.rat m e < q

/-- A float compared with a rational bound: `q < v` (never for NaN). -/
def F32.above : F32 → ℚ → Prop
  | F32.nan, _ => False
  | F32.inf negative, _ => negative = false
  | F32.fin m e, q => q < F32.rat m e

/-! ## Theorems -/

/-! ### Floats against rationals -/

theorem F32.rat_split (m e e0 : Int) (h : e0 ≤ e) :
    F32.rat m e = ((m * 2 ^ (e - e0).toNat : Int) : ℚ) * (2 : ℚ) ^ e0 := by
  unfold F32.rat
  have h2 : (2 : ℚ) ≠ 0 := by norm_num
  have hk : ((e - e0).toNat : Int) = e - e0 := Int.toNat_of_nonneg (by omega)
  have he : e = ((e - e0).toNat : Int) + e0 := by omega
  conv_lhs => rw [he]
  rw [zpow_add₀ h2, zpow_natCast]
  push_cast
  ring

theorem F32.lt_fin_iff (m1 e1 m2 e2 : Int) :
    F32.lt (F32.fin m1 e1) (F32.fin m2 e2) = true ↔ F32.rat m1 e1 < F32.rat m2 e2 := by
  have hpos : (0 : ℚ) < (2 : ℚ) ^ (min e1 e2) := zpow_pos (by norm_num) _
  rw [F32.rat_split m1 e1 (min e1 e2) (min_le_left _ _),
    F32.rat_split m2 e2 (min e1 e2) (min_le_right _ _)]
  simp only [F32.lt, decide_eq_true_eq]
  rw [mul_lt_mul_right hpos, Int.cast_lt]

theorem F32.rat_MIN_ZOOM : F32.rat 1 (-2) = 1 / 4 := by
  norm_num [F32.rat]

theorem F32.rat_MAX_ZOOM : F32.rat 1 2 = 4 := by
  norm_num [F32.rat]

/-- C3. After `set_zoom( v )` the stored zoom is `clamp( v, 0.25, 4.0 )`: the
constant `0.25f` when `v < 0.25`, the constant `4.0f` when `v > 4.0`, and `v`
itself otherwise (a NaN compares neither way, so it is stored as it is). -/
theorem set_zoom_clamps (w : tile_display_window) (v : F32) :
    (F32.below v (1 / 4) → (w.set_zoom v).zoom_ = MIN_ZOOM) ∧
    (F32.above v 4 → (w.set_zoom v).zoom_ = MAX_ZOOM) ∧
    (¬ F32.below v (1 / 4) → ¬ F32.above v 4 → (w.set_zoom v).zoom_ = v) ∧
    MIN_ZOOM = F32.fin 1 (-2) ∧ F32.rat 1 (-2) = 1 / 4 ∧
    MAX_ZOOM = F32.fin 1 2 ∧ F32.rat 1 2 = 4 := by
  refine ⟨?_, ?_, ?_, rfl, F32.rat_MIN_ZOOM, rfl, F32.rat_MAX_ZOOM⟩
  · intro h
    cases v with
    | nan => exact absurd h (by simp [F32.below])
    | inf s =>
        simp only [F32.below] at h
        subst h
        simp [tile_display_window.set_zoom, clamp, F32.lt, MIN_ZOOM]
    | fin m e =>
        simp only [F32.below] at h
        have hlt : F32.lt (F32.fin m e) MIN_ZOOM = true := by
          rw [MIN_ZOOM, F32.lt_fin_iff, F32.rat_MIN_ZOOM]; exact h
        simp [tile_display_window.set_zoom, clamp, hlt]
  · intro h
    cases v with
    | nan => exact absurd h (by simp [F32.above])
    | inf s =>
        simp only [F32.above] at h
        subst h
        simp [tile_display_window.set_zoom, clamp, F32.lt, MIN_ZOOM, MAX_ZOOM]
    | fin m e =>
        simp only [F32.above] at h
        have hgt : F32.lt MAX_ZOOM (F32.fin m e) = true := by
          rw [MAX_ZOOM, F32.lt_fin_iff, F32.rat_MAX_ZOOM]; exact h
        have hnlt : F32.lt (F32.fin m e) MIN_ZOOM = false := by
          rw [Bool.eq_false_iff, Ne, MIN_ZOOM, F32.lt_fin_iff, F32.rat_MIN_ZOOM]
          intro h1; linarith
        simp [tile_display_window.set_zoom, clamp, hgt, hnlt]
  · intro h1 h2
    cases v with
    | nan => simp [tile_display_window.set_zoom, clamp, F32.lt, MIN_ZOOM, MAX_ZOOM]
    | inf s =>
        simp only [F32.below, F32.above] at h1 h2
        cases s <;> simp at h1 h2
    | fin m e =>
        simp only [F32.below, F32.above] at h1 h2
        have hnlt : F32.lt (F32.fin m e) MIN_ZOOM = false := by
          rw [Bool.eq_false_iff, Ne, MIN_ZOOM, F32.lt_fin_iff, F32.rat_MIN_ZOOM]
          exact h1
        have hngt : F32.lt MAX_ZOOM (F32.fin m e) = false := by
          rw [Bool.eq_false_iff, Ne, MAX_ZOOM, F32.lt_fin_iff, F32.rat_MAX_ZOOM]
          exact h2
        simp [tile_display_window.set_zoom, clamp, hngt, hnlt]

/-! ### The loop of `query` -/

theorem draw_tiles_eq_map (w : tile_display_window) (p : point) :
    w.draw_tiles true p = w.layers_.map (fun l => layer_draw_call l p) := by
  simp only [tile_display_window.draw_tiles, Bool.not_true, Bool.false_eq_true, if_false]
  induction w.layers_ with
  | nil => rfl
  | cons l ls ih =>
      simp only [List.flatMap_cons, List.map_cons, ih]
      rfl

theorem query_frame_eq (D : Int) (w : tile_display_window) (tx ty : Int) (i : frame_input) :
    tile_display_window.query_frame D w tx ty i =
      Event.set_draw_scale scale_write.frame (F32.toInt (F32.mul w.zoom_ (F32.ofInt D))) ::
      Event.idle_animations_set_enabled i.animations ::
      Event.idle_animations_prepare_for_redraw ::
      (w.layers_.map (fun l => layer_draw_call l (w.pixel_position tx ty i)) ++
        [Event.refresh_display, Event.handle_input i.action]) := by
  simp [tile_display_window.query_frame, advance_animation_frame, draw_tiles_eq_map]

theorem query_loop_events (D : Int) (w : tile_display_window) (tx ty : Int)
    (inputs : List frame_input) :
    (tile_display_window.query_loop D w tx ty inputs).1 =
      (frames_run inputs).flatMap (tile_display_window.query_frame D w tx ty) := by
  induction inputs with
  | nil => rfl
  | cons i rest ih =>
      by_cases h : i.action = "TIMEOUT"
      · simp [tile_display_window.query_loop, frames_run, h, ih]
      · simp [tile_display_window.query_loop, frames_run, h]

theorem frames_run_timeouts (ts : List frame_input) (last : frame_input)
    (rest : List frame_input) (hts : ∀ t ∈ ts, t.action = "TIMEOUT")
    (hlast : last.action ≠ "TIMEOUT") :
    frames_run (ts ++ last :: rest) = ts ++ [last] := by
  induction ts with
  | nil => simp [frames_run, hlast]
  | cons t ts ih =>
      have ht : t.action = "TIMEOUT" := hts t (List.mem_cons_self _ _)
      have ih1 := ih (fun x hx => hts x (List.mem_cons_of_mem _ hx))
      simp [frames_run, ht, ih1]

theorem query_loop_returned (D : Int) (w : tile_display_window) (tx ty : Int)
    (ts : List frame_input) (last : frame_input) (rest : List frame_input)
    (hts : ∀ t ∈ ts, t.action = "TIMEOUT") (hlast : last.action ≠ "TIMEOUT") :
    (tile_display_window.query_loop D w tx ty (ts ++ last :: rest)).2 = some last.action := by
  induction ts with
  | nil => simp [tile_display_window.query_loop, hlast]
  | cons t ts ih =>
      have ht : t.action = "TIMEOUT" := hts t (List.mem_cons_self _ _)
      have ih1 := ih (fun x hx => hts x (List.mem_cons_of_mem _ hx))
      simp [tile_display_window.query_loop, ht, ih1]

/-- The window `query` works on after the capture draws the same frames. -/
theorem query_frame_saved (D : Int) (w : tile_display_window) (a : F32) (b : Bool) :
    tile_display_window.query_frame D { w with original_zoom_ := a, saved_original_zoom_ := b } =
      tile_display_window.query_frame D w := rfl

/-- The whole trace of a `query` that found a renderer. -/
theorem query_events (D : Int) (w : tile_display_window) (entry : query_entry)
    (inputs : List frame_input) :
    (w.query D true entry inputs).events =
      (if w.saved_original_zoom_ then [] else [Event.save_original_zoom (F32.ofInt D)]) ++
      query_setup ++
      (frames_run inputs).flatMap (tile_display_window.query_frame D w
        (entry.window_width.tdiv entry.TERMX) (entry.window_height.tdiv entry.TERMY)) ++
      (if (w.query D true entry inputs).returned.isSome then
        [Event.set_draw_scale scale_write.restore
          (F32.toInt (if w.saved_original_zoom_ then w.original_zoom_ else F32.ofInt D))]
       else []) := by
  have hev := query_loop_events D
  cases hs : w.saved_original_zoom_
  · cases hl : (tile_display_window.query_loop D
        { w with original_zoom_ := F32.ofInt D, saved_original_zoom_ := true }
        (entry.window_width.tdiv entry.TERMX) (entry.window_height.tdiv entry.TERMY) inputs).2 <;>
      simp [tile_display_window.query, hs, hl, hev, query_frame_saved, query_setup,
        ANIMATION_TIMEOUT_MS]
  · cases hl : (tile_display_window.query_loop D w
        (entry.window_width.tdiv entry.TERMX) (entry.window_height.tdiv entry.TERMY) inputs).2 <;>
      simp [tile_display_window.query, hs, hl, hev, query_setup, ANIMATION_TIMEOUT_MS]

theorem query_null_tilecontext (D : Int) (w : tile_display_window) (entry : query_entry)
    (inputs : List frame_input) :
    w.query D false entry inputs = { window := w, events := [], returned := some "ERROR" } := by
  simp [tile_display_window.query]

theorem query_returned (D : Int) (w : tile_display_window) (entry : query_entry)
    (inputs : List frame_input) :
    (w.query D true entry inputs).returned =
      (tile_display_window.query_loop D w (entry.window_width.tdiv entry.TERMX)
        (entry.window_height.tdiv entry.TERMY) inputs).2 := by
  have hloop : ∀ (a : F32) (b : Bool) (tx ty : Int) (l : List frame_input),
      (tile_display_window.query_loop D
        { w with original_zoom_ := a, saved_original_zoom_ := b } tx ty l).2 =
      (tile_display_window.query_loop D w tx ty l).2 := by
    intro a b tx ty l
    induction l with
    | nil => rfl
    | cons i rest ih =>
        by_cases h : i.action = "TIMEOUT" <;> simp [tile_display_window.query_loop, h, ih]
  cases hs : w.saved_original_zoom_
  · cases hl : (tile_display_window.query_loop D w
        (entry.window_width.tdiv entry.TERMX) (entry.window_height.tdiv entry.TERMY) inputs).2 <;>
      simp [tile_display_window.query, hs, hloop, hl]
  · cases hl : (tile_display_window.query_loop D w
        (entry.window_width.tdiv entry.TERMX) (entry.window_height.tdiv entry.TERMY) inputs).2 <;>
      simp [tile_display_window.query, hs, hl]

theorem count_refresh_frames (D : Int) (w : tile_display_window) (tx ty : Int)
    (frames : List frame_input) :
    (frames.flatMap (tile_display_window.query_frame D w tx ty)).count Event.refresh_display =
      frames.length := by
  have hdraw : ∀ (ls : List tile_display_layer) (p : point),
      (ls.map (fun l => layer_draw_call l p)).count Event.refresh_display = 0 := by
    intro ls p
    induction ls with
    | nil => rfl
    | cons l ls ih =>
        rw [List.map_cons, List.count_cons, ih]
        simp [layer_draw_call]
  induction frames with
  | nil => rfl
  | cons i rest ih =>
      simp [List.flatMap_cons, List.count_append, ih, query_frame_eq, List.count_cons, hdraw]

/-- C5. Without a renderer `query` returns `"ERROR"` at once: it causes no
event at all (no registration, no scale write, no animation advance, no draw
call, no frame presentation) and leaves the window as it was. -/
theorem query_without_renderer (D : Int) (w : tile_display_window) (entry : query_entry)
    (inputs : List frame_input) :
    w.query D false entry inputs = { window := w, events := [], returned := some "ERROR" } := by
  simp [tile_display_window.query]

/-- C6. With a renderer, on `n` iterations that time out followed by one whose
action `a` is not `"TIMEOUT"`, `query` returns `a` after exactly `n + 1` frames:
its trace is the set-up, then for each of the `n + 1` iterations one scale push,
one animation advance, one draw call per layer in order, one presentation and
one wait for input, then the write-back. -/
theorem query_renders_until_action (D : Int) (w : tile_display_window) (entry : query_entry)
    (ts : List frame_input) (last : frame_input) (rest : List frame_input)
    (hts : ∀ t ∈ ts, t.action = "TIMEOUT") (hlast : last.action ≠ "TIMEOUT") :
    (w.query D true entry (ts ++ last :: rest)).returned = some last.action ∧
    (w.query D true entry (ts ++ last :: rest)).events =
      (if w.saved_original_zoom_ then [] else [Event.save_original_zoom (F32.ofInt D)]) ++
      query_setup ++
      (ts ++ [last]).flatMap (fun i =>
        Event.set_draw_scale scale_write.frame (F32.toInt (F32.mul w.zoom_ (F32.ofInt D))) ::
        Event.idle_animations_set_enabled i.animations ::
        Event.idle_animations_prepare_for_redraw ::
        (w.layers_.map (fun l => layer_draw_call l
            (w.pixel_position (entry.window_width.tdiv entry.TERMX)
              (entry.window_height.tdiv entry.TERMY) i)) ++
          [Event.refresh_display, Event.handle_input i.action])) ++
      [Event.set_draw_scale scale_write.restore
        (F32.toInt (if w.saved_original_zoom_ then w.original_zoom_ else F32.ofInt D))] ∧
    (w.query D true entry (ts ++ last :: rest)).events.count Event.refresh_display =
      ts.length + 1 := by
  have hret : (w.query D true entry (ts ++ last :: rest)).returned = some last.action := by
    rw [query_returned, query_loop_returned D w _ _ ts last rest hts hlast]
  have hev := query_events D w entry (ts ++ last :: rest)
  rw [hret, frames_run_timeouts ts last rest hts hlast] at hev
  refine ⟨hret, ?_, ?_⟩
  · rw [hev]
    simp only [Option.isSome_some, if_true]
    congr 2
    apply List.flatMap_congr
    intro i _
    exact query_frame_eq D w _ _ i
  · rw [hev]
    simp only [List.count_append, count_refresh_frames]
    cases w.saved_original_zoom_ <;> simp [query_setup, List.count_cons]

/-- The witness for C6: two timeouts, then `"QUIT"`: three frames. -/
theorem query_renders_until_action_witness :
    (∀ t ∈ [(⟨32, 32, 800, 600, true, "TIMEOUT"⟩ : frame_input),
        ⟨32, 32, 800, 600, true, "TIMEOUT"⟩], t.action = "TIMEOUT") ∧
    (⟨32, 32, 800, 600, true, "QUIT"⟩ : frame_input).action ≠ "TIMEOUT" ∧
    (({} : tile_display_window).query 16 true ⟨800, 600, 80, 24⟩
      ([⟨32, 32, 800, 600, true, "TIMEOUT"⟩, ⟨32, 32, 800, 600, true, "TIMEOUT"⟩] ++
        ⟨32, 32, 800, 600, true, "QUIT"⟩ :: [])).returned = some "QUIT" ∧
    (({} : tile_display_window).query 16 true ⟨800, 600, 80, 24⟩
      ([⟨32, 32, 800, 600, true, "TIMEOUT"⟩, ⟨32, 32, 800, 600, true, "TIMEOUT"⟩] ++
        ⟨32, 32, 800, 600, true, "QUIT"⟩ :: [])).events.count Event.refresh_display = 2 + 1 :=
  ⟨by decide, by decide,
   (query_renders_until_action 16 {} ⟨800, 600, 80, 24⟩
    [⟨32, 32, 800, 600, true, "TIMEOUT"⟩, ⟨32, 32, 800, 600, true, "TIMEOUT"⟩]
    ⟨32, 32, 800, 600, true, "QUIT"⟩ [] (by decide) (by decide)).1,
   (query_renders_until_action 16 {} ⟨800, 600, 80, 24⟩
    [⟨32, 32, 800, 600, true, "TIMEOUT"⟩, ⟨32, 32, 800, 600, true, "TIMEOUT"⟩]
    ⟨32, 32, 800, 600, true, "QUIT"⟩ [] (by decide) (by decide)).2.2⟩

/-! ### Pixel positions -/

theorem draw_positions_append (a b : List Event) :
    draw_positions (a ++ b) = draw_positions a ++ draw_positions b := by
  induction a with
  | nil => rfl
  | cons e a ih => cases e <;> simp [draw_positions, ih]

theorem draw_positions_layers (ls : List tile_display_layer) (p : point) :
    draw_positions (ls.map (fun l => layer_draw_call l p)) = ls.map (fun _ => p) := by
  induction ls with
  | nil => rfl
  | cons l ls ih => simp [layer_draw_call, draw_positions] at ih ⊢; exact ih

theorem draw_positions_flatMap (frames : List frame_input) (f : frame_input → List Event) :
    draw_positions (frames.flatMap f) = frames.flatMap (fun i => draw_positions (f i)) := by
  induction frames with
  | nil => rfl
  | cons i rest ih => simp [List.flatMap_cons, draw_positions_append, ih]

/-- Where the draw calls of a `query` go: per iteration run, one position per
layer, the position computed in that iteration. -/
theorem query_draw_positions (D : Int) (w : tile_display_window) (entry : query_entry)
    (inputs : List frame_input) :
    draw_positions (w.query D true entry inputs).events =
      (frames_run inputs).flatMap (fun i => w.layers_.map (fun _ =>
        w.pixel_position (entry.window_width.tdiv entry.TERMX)
          (entry.window_height.tdiv entry.TERMY) i)) := by
  rw [query_events]
  simp only [draw_positions_append, draw_positions_flatMap]
  have h1 : draw_positions
      (if w.saved_original_zoom_ then [] else [Event.save_original_zoom (F32.ofInt D)]) = [] := by
    cases w.saved_original_zoom_ <;> rfl
  have h2 : draw_positions query_setup = [] := rfl
  have h3 : draw_positions
      (if (w.query D true entry inputs).returned.isSome then
        [Event.set_draw_scale scale_write.restore
          (F32.toInt (if w.saved_original_zoom_ then w.original_zoom_ else F32.ofInt D))]
       else []) = [] := by
    cases (w.query D true entry inputs).returned.isSome <;> rfl
  rw [h1, h2, h3]
  simp only [List.nil_append, List.append_nil]
  apply List.flatMap_congr
  intro i _
  rw [query_frame_eq]
  simp [draw_positions, draw_positions_append, draw_positions_layers]

/-- C8. With the x-axis centered (`-1`), every draw call of every frame of
`query` gets pixel x `(W - Tw) / 2`, for the projected window width `W` and the
tile width `Tw` read in that frame, whenever `W ≥ Tw`; likewise the y-axis with
the projected height and the tile height. -/
theorem query_centered_position (D : Int) (w : tile_display_window) (entry : query_entry)
    (inputs : List frame_input) :
    (w.pos_x_ = -1 → (∀ i ∈ frames_run inputs, i.t_width ≤ i.window_width) →
      (draw_positions (w.query D true entry inputs).events).map point.x =
        (frames_run inputs).flatMap (fun i => w.layers_.map (fun _ =>
          (i.window_width - i.t_width) / 2))) ∧
    (w.pos_y_ = -1 → (∀ i ∈ frames_run inputs, i.t_height ≤ i.window_height) →
      (draw_positions (w.query D true entry inputs).events).map point.y =
        (frames_run inputs).flatMap (fun i => w.layers_.map (fun _ =>
          (i.window_height - i.t_height) / 2))) := by
  constructor
  · intro hx hle
    rw [query_draw_positions, List.map_flatMap]
    apply List.flatMap_congr
    intro i hi
    have h : (i.window_width - i.t_width).tdiv 2 = (i.window_width - i.t_width) / 2 :=
      Int.tdiv_eq_ediv (by have := hle i hi; omega) (by decide)
    simp [tile_display_window.pixel_position, hx, h]
  · intro hy hle
    rw [query_draw_positions, List.map_flatMap]
    apply List.flatMap_congr
    intro i hi
    have h : (i.window_height - i.t_height).tdiv 2 = (i.window_height - i.t_height) / 2 :=
      Int.tdiv_eq_ediv (by have := hle i hi; omega) (by decide)
    simp [tile_display_window.pixel_position, hy, h]

theorem wrap_int_of_range (x : Int) (hlo : -2 ^ 31 ≤ x) (hhi : x < 2 ^ 31) : wrap_int x = x := by
  unfold wrap_int
  rw [Int.emod_eq_of_lt (by omega) (by omega)]
  omega

/-- C9 as stated fails: with the x-axis at cell `300000000`, a window `800` wide
and `80` columns (`10` pixels a cell), the draw call gets pixel x `-1294967296`,
not `300000000 * 10`: the `int` product does not fit 32 bits. -/
theorem query_explicit_position_overflows :
    0 ≤ ((({} : tile_display_window).add_layer_id "t_floor").set_position 300000000 2).pos_x_ ∧
    (draw_positions (((({} : tile_display_window).add_layer_id "t_floor").set_position
      300000000 2).query 16 true ⟨800, 600, 80, 24⟩
        [⟨32, 64, 800, 600, true, "QUIT"⟩]).events).map point.x = [-1294967296] ∧
    (draw_positions (((({} : tile_display_window).add_layer_id "t_floor").set_position
      300000000 2).query 16 true ⟨800, 600, 80, 24⟩
        [⟨32, 64, 800, 600, true, "QUIT"⟩]).events).map point.x ≠
      [300000000 * (800 : Int).tdiv 80] := by
  decide

/-- C9, amended. With an explicit cell coordinate `c ≥ 0` on an axis, every
draw call of every frame of `query` gets the 32 bit product of `c` and the
quotient (C++ integer division) of the projected window size by the grid size,
taken once when `query` starts; whenever that product fits a 32 bit `int` the
pixel coordinate is `c * (projected dimension / grid cell count)` itself.
Neither the zoom nor the tile size enters. -/
theorem query_explicit_position (D : Int) (w : tile_display_window) (entry : query_entry)
    (inputs : List frame_input) :
    (0 ≤ w.pos_x_ →
      (draw_positions (w.query D true entry inputs).events).map point.x =
        (frames_run inputs).flatMap (fun _ => w.layers_.map (fun _ =>
          wrap_int (w.pos_x_ * entry.window_width.tdiv entry.TERMX)))) ∧
    (0 ≤ w.pos_x_ → -2 ^ 31 ≤ w.pos_x_ * entry.window_width.tdiv entry.TERMX →
      w.pos_x_ * entry.window_width.tdiv entry.TERMX < 2 ^ 31 →
      (draw_positions (w.query D true entry inputs).events).map point.x =
        (frames_run inputs).flatMap (fun _ => w.layers_.map (fun _ =>
          w.pos_x_ * entry.window_width.tdiv entry.TERMX))) ∧
    (0 ≤ w.pos_y_ →
      (draw_positions (w.query D true entry inputs).events).map point.y =
        (frames_run inputs).flatMap (fun _ => w.layers_.map (fun _ =>
          wrap_int (w.pos_y_ * entry.window_height.tdiv entry.TERMY)))) ∧
    (0 ≤ w.pos_y_ → -2 ^ 31 ≤ w.pos_y_ * entry.window_height.tdiv entry.TERMY →
      w.pos_y_ * entry.window_height.tdiv entry.TERMY < 2 ^ 31 →
      (draw_positions (w.query D true entry inputs).events).map point.y =
        (frames_run inputs).flatMap (fun _ => w.layers_.map (fun _ =>
          w.pos_y_ * entry.window_height.tdiv entry.TERMY))) := by
  have hxw : 0 ≤ w.pos_x_ →
      (draw_positions (w.query D true entry inputs).events).map point.x =
        (frames_run inputs).flatMap (fun _ => w.layers_.map (fun _ =>
          wrap_int (w.pos_x_ * entry.window_width.tdiv entry.TERMX))) := by
    intro hx
    rw [query_draw_positions, List.map_flatMap]
    apply List.flatMap_congr
    intro i _
    have h : ¬ w.pos_x_ < 0 := by omega
    simp [tile_display_window.pixel_position, h]
  have hyw : 0 ≤ w.pos_y_ →
      (draw_positions (w.query D true entry inputs).events).map point.y =
        (frames_run inputs).flatMap (fun _ => w.layers_.map (fun _ =>
          wrap_int (w.pos_y_ * entry.window_height.tdiv entry.TERMY))) := by
    intro hy
    rw [query_draw_positions, List.map_flatMap]
    apply List.flatMap_congr
    intro i _
    have h : ¬ w.pos_y_ < 0 := by omega
    simp [tile_display_window.pixel_position, h]
  refine ⟨hxw, ?_, hyw, ?_⟩
  · intro hx hlo hhi
    rw [hxw hx, wrap_int_of_range _ hlo hhi]
  · intro hy hlo hhi
    rw [hyw hy, wrap_int_of_range _ hlo hhi]

/-- The witness for C8: one layer, centered, window `800 x 600`, tile `32 x 64`. -/
theorem query_centered_position_witness :
    (draw_positions ((({} : tile_display_window).add_layer_id "t_floor").query 16 true
      ⟨800, 600, 80, 24⟩ [⟨32, 64, 800, 600, true, "QUIT"⟩]).events).map point.x =
      [(800 - 32) / 2] ∧
    (draw_positions ((({} : tile_display_window).add_layer_id "t_floor").query 16 true
      ⟨800, 600, 80, 24⟩ [⟨32, 64, 800, 600, true, "QUIT"⟩]).events).map point.y =
      [(600 - 64) / 2] :=
  ⟨(query_centered_position 16 (({} : tile_display_window).add_layer_id "t_floor")
      ⟨800, 600, 80, 24⟩ [⟨32, 64, 800, 600, true, "QUIT"⟩]).1 rfl (by decide),
   (query_centered_position 16 (({} : tile_display_window).add_layer_id "t_floor")
      ⟨800, 600, 80, 24⟩ [⟨32, 64, 800, 600, true, "QUIT"⟩]).2 rfl (by decide)⟩

/-- The witness for C9: one layer at cell `(3, 2)`, window `800 x 600`, grid
`80 x 24`: pixel `(3 * 10, 2 * 25)`. -/
theorem query_explicit_position_witness :
    (draw_positions (((({} : tile_display_window).add_layer_id "t_floor").set_position 3 2).query
      16 true ⟨800, 600, 80, 24⟩ [⟨32, 64, 800, 600, true, "QUIT"⟩]).events).map point.x =
      [3 * 10] ∧
    (draw_positions (((({} : tile_display_window).add_layer_id "t_floor").set_position 3 2).query
      16 true ⟨800, 600, 80, 24⟩ [⟨32, 64, 800, 600, true, "QUIT"⟩]).events).map point.y =
      [2 * 25] :=
  ⟨(query_explicit_position 16
      ((({} : tile_display_window).add_layer_id "t_floor").set_position 3 2)
      ⟨800, 600, 80, 24⟩ [⟨32, 64, 800, 600, true, "QUIT"⟩]).2.1 (by decide) (by decide)
      (by decide),
   (query_explicit_position 16
      ((({} : tile_display_window).add_layer_id "t_floor").set_position 3 2)
      ⟨800, 600, 80, 24⟩ [⟨32, 64, 800, 600, true, "QUIT"⟩]).2.2.2 (by decide) (by decide)
      (by decide)⟩

/-! ### Layers -/

/-- The window a `query` that found a renderer leaves behind: only the saved
scale and its flag can differ, and the flag is down once the call returns. -/
theorem query_window (D : Int) (w : tile_display_window) (entry : query_entry)
    (inputs : List frame_input) :
    (w.query D true entry inputs).window =
      { w with
        original_zoom_ := if w.saved_original_zoom_ then w.original_zoom_ else F32.ofInt D,
        saved_original_zoom_ := (w.query D true entry inputs).returned.isNone } := by
  cases hs : w.saved_original_zoom_
  · cases hl : (tile_display_window.query_loop D
        { w with original_zoom_ := F32.ofInt D, saved_original_zoom_ := true }
        (entry.window_width.tdiv entry.TERMX) (entry.window_height.tdiv entry.TERMY) inputs).2 <;>
      simp [tile_display_window.query, hs, hl]
  · cases hl : (tile_display_window.query_loop D w
        (entry.window_width.tdiv entry.TERMX) (entry.window_height.tdiv entry.TERMY) inputs).2 <;>
      (simp [tile_display_window.query, hs, hl]; try rw [← hs])

theorem query_window_layers (D : Int) (tc : Bool) (w : tile_display_window) (entry : query_entry)
    (inputs : List frame_input) :
    (w.query D tc entry inputs).window.layers_ = w.layers_ := by
  cases tc
  · rw [query_null_tilecontext]
  · rw [query_window]

theorem call_layers (D : Int) (tc : Bool) (w w1 : tile_display_window) (op : Op)
    (events : List Event) (h : op.call D tc w = some (w1, events)) (rest : List (Bool × Op)) :
    layers_after w.layers_ ((tc, op) :: rest) = layers_after w1.layers_ rest := by
  cases op with
  | query entry inputs =>
      simp only [Op.call] at h
      split at h
      · exact absurd h (by simp)
      · simp only [Option.some.injEq, Prod.mk.injEq] at h
        rw [← h.1, query_window_layers]
        rfl
  | clear =>
      simp only [Op.call, Option.some.injEq, Prod.mk.injEq] at h
      rw [← h.1]
      unfold tile_display_window.clear
      cases w.saved_original_zoom_ <;> cases tc <;> rfl
  | _ =>
      simp only [Op.call, Option.some.injEq, Prod.mk.injEq] at h
      rw [← h.1]
      rfl

theorem run_layers (D : Int) (calls : List (Bool × Op)) :
    ∀ (w0 w : tile_display_window) (events : List Event),
      run D calls w0 = some (w, events) → w.layers_ = layers_after w0.layers_ calls := by
  induction calls with
  | nil =>
      intro w0 w events h
      simp only [run, Option.some.injEq, Prod.mk.injEq] at h
      rw [← h.1]
      rfl
  | cons c rest ih =>
      intro w0 w events h
      obtain ⟨tc, op⟩ := c
      simp only [run] at h
      cases hc : op.call D tc w0 with
      | none => rw [hc] at h; exact absurd h (by simp)
      | some r =>
          obtain ⟨w1, ev1⟩ := r
          rw [hc] at h
          simp only at h
          cases hr : run D rest w1 with
          | none => rw [hr] at h; exact absurd h (by simp)
          | some r2 =>
              obtain ⟨w2, later⟩ := r2
              rw [hr] at h
              simp only [Option.some.injEq, Prod.mk.injEq] at h
              rw [call_layers D tc w0 w1 op ev1 hc rest, ← h.1]
              exact ih w1 w2 later hr

/-- C4. After any sequence of calls, one draw pass with a renderer present
issues exactly one draw call per layer appended since the last `clear_layers`
or `clear`, in insertion order, each with that layer's `tile_id`, `tint` and
`rotation` and all at the same pixel position; right after `clear_layers` (or
`clear`) a draw pass issues no draw call. -/
theorem draw_tiles_in_insertion_order (D : Int) (calls : List (Bool × Op))
    (w0 w : tile_display_window) (events : List Event) (p : point) (tc : Bool)
    (h : run D calls w0 = some (w, events)) :
    w.draw_tiles true p = (layers_after w0.layers_ calls).map (fun l => layer_draw_call l p) ∧
    w.clear_layers.draw_tiles true p = [] ∧
    (w.clear tc).window.draw_tiles true p = [] := by
  refine ⟨?_, ?_, ?_⟩
  · rw [draw_tiles_eq_map, run_layers D calls w0 w events h]
  · rfl
  · unfold tile_display_window.clear
    cases w.saved_original_zoom_ <;> cases tc <;> rfl

/-- The witness for C4: three layers added to a new window, then a draw pass. -/
theorem draw_tiles_in_insertion_order_witness :
    run 16 [(true, Op.add_layer_id "L1"), (true, Op.add_layer_with_tint "L2" 255 0 0 255),
        (true, Op.add_layer_rotated "L3" 2)] {} =
      some ({ layers_ := [⟨"L1", none, 0⟩, ⟨"L2", some ⟨255, 0, 0, 255⟩, 0⟩,
        ⟨"L3", none, 2⟩] }, []) ∧
    ({ layers_ := [⟨"L1", none, 0⟩, ⟨"L2", some ⟨255, 0, 0, 255⟩, 0⟩, ⟨"L3", none, 2⟩] } :
        tile_display_window).draw_tiles true ⟨5, 7⟩ =
      [layer_draw_call ⟨"L1", none, 0⟩ ⟨5, 7⟩,
       layer_draw_call ⟨"L2", some ⟨255, 0, 0, 255⟩, 0⟩ ⟨5, 7⟩,
       layer_draw_call ⟨"L3", none, 2⟩ ⟨5, 7⟩] :=
  ⟨rfl, (draw_tiles_in_insertion_order 16
    [(true, Op.add_layer_id "L1"), (true, Op.add_layer_with_tint "L2" 255 0 0 255),
      (true, Op.add_layer_rotated "L3" 2)] {} _ [] ⟨5, 7⟩ true rfl).1⟩

/-! ### Restoring the draw scale -/

theorem restores_paired_neutral (a b : List Event) (owed : Option F32)
    (h : ∀ e ∈ a, e.is_neutral = true) :
    restores_paired owed (a ++ b) = restores_paired owed b := by
  induction a with
  | nil => rfl
  | cons e a ih =>
      have he : e.is_neutral = true := h e (List.mem_cons_self _ _)
      have ih1 := ih (fun x hx => h x (List.mem_cons_of_mem _ hx))
      cases e with
      | save_original_zoom v => simp [Event.is_neutral] at he
      | set_draw_scale site scale =>
          cases site with
          | frame => simpa [restores_paired] using ih1
          | restore => simp [Event.is_neutral] at he
      | _ => simpa [restores_paired] using ih1

theorem query_frame_neutral (D : Int) (w : tile_display_window) (tx ty : Int) (i : frame_input) :
    ∀ e ∈ tile_display_window.query_frame D w tx ty i, e.is_neutral = true := by
  intro e he
  rw [query_frame_eq] at he
  simp only [List.mem_cons, List.mem_append, List.mem_map, List.mem_singleton, List.mem_nil_iff,
    or_false] at he
  rcases he with h | h | h | ⟨l, _, h⟩ | h | h <;> subst h <;> rfl

theorem frames_neutral (D : Int) (w : tile_display_window) (tx ty : Int)
    (frames : List frame_input) :
    ∀ e ∈ frames.flatMap (tile_display_window.query_frame D w tx ty), e.is_neutral = true := by
  intro e he
  rw [List.mem_flatMap] at he
  obtain ⟨i, _, hi⟩ := he
  exact query_frame_neutral D w tx ty i e hi

theorem query_loop_returns (D : Int) (w : tile_display_window) (tx ty : Int)
    (inputs : List frame_input)
    (h : inputs.any (fun i => decide (i.action ≠ "TIMEOUT")) = true) :
    (tile_display_window.query_loop D w tx ty inputs).2.isSome = true := by
  induction inputs with
  | nil => simp at h
  | cons i rest ih =>
      by_cases hi : i.action = "TIMEOUT"
      · simp only [List.any_cons, hi, ne_eq, not_true_eq_false, decide_False, Bool.false_or] at h
        simp [tile_display_window.query_loop, hi, ih h]
      · simp [tile_display_window.query_loop, hi]

/-- A returning `query` on a window that owes nothing captures once and writes
the captured value back once: its trace is transparent for the pairing. -/
theorem query_paired (D : Int) (w : tile_display_window) (entry : query_entry)
    (inputs : List frame_input) (hs : w.saved_original_zoom_ = false)
    (hret : (w.query D true entry inputs).returned.isSome = true) (t : List Event) :
    restores_paired none ((w.query D true entry inputs).events ++ t) = restores_paired none t := by
  rw [query_events, hret, hs]
  have hsetup : ∀ e ∈ query_setup, e.is_neutral = true := by
    intro e he
    simp only [query_setup, List.mem_cons, List.mem_singleton, List.mem_nil_iff, or_false] at he
    rcases he with h | h | h | h | h | h | h <;> subst h <;> rfl
  have hsave : ∀ (v : F32) (l : List Event),
      restores_paired none (Event.save_original_zoom v :: l) = restores_paired (some v) l := by
    intro v l; simp [restores_paired]
  have hrestore : ∀ (v : F32) (l : List Event),
      restores_paired (some v) (Event.set_draw_scale scale_write.restore (F32.toInt v) :: l) =
        restores_paired none l := by
    intro v l; simp [restores_paired]
  simp only [Bool.false_eq_true, if_false, if_true, List.append_assoc, List.singleton_append,
    List.cons_append, List.nil_append]
  rw [hsave, restores_paired_neutral _ _ _ hsetup,
    restores_paired_neutral _ _ _ (frames_neutral D w _ _ _), hrestore]

/-- One returning call on a window that owes nothing: it runs, the window owes
nothing afterwards, and its trace is transparent for the pairing. -/
theorem call_paired (D : Int) (tc : Bool) (w : tile_display_window) (op : Op)
    (hs : w.saved_original_zoom_ = false) (hret : op.returns tc = true) :
    ∃ w1 events, op.call D tc w = some (w1, events) ∧ w1.saved_original_zoom_ = false ∧
      ∀ t, restores_paired none (events ++ t) = restores_paired none t := by
  cases op with
  | query entry inputs =>
      cases tc with
      | false =>
          refine ⟨w, [], ?_, hs, fun t => rfl⟩
          simp [Op.call, query_null_tilecontext]
      | true =>
          simp only [Op.returns, Bool.not_true, Bool.false_or] at hret
          have hsome : (w.query D true entry inputs).returned.isSome = true := by
            rw [query_returned]; exact query_loop_returns D w _ _ inputs hret
          obtain ⟨a, ha⟩ := Option.isSome_iff_exists.mp hsome
          refine ⟨(w.query D true entry inputs).window, (w.query D true entry inputs).events,
            ?_, ?_, fun t => query_paired D w entry inputs hs hsome t⟩
          · simp [Op.call, ha]
          · rw [query_window, ha]; rfl
  | clear =>
      refine ⟨(w.clear tc).window, (w.clear tc).events, rfl, ?_, ?_⟩
      · simp [tile_display_window.clear, hs]
      · intro t; simp [tile_display_window.clear, hs]
  | set_position x y => exact ⟨_, [], rfl, hs, fun t => rfl⟩
  | clear_layers => exact ⟨_, [], rfl, hs, fun t => rfl⟩
  | add_layer layer => exact ⟨_, [], rfl, hs, fun t => rfl⟩
  | add_layer_id tile_id => exact ⟨_, [], rfl, hs, fun t => rfl⟩
  | add_layer_with_tint tile_id r g b a => exact ⟨_, [], rfl, hs, fun t => rfl⟩
  | add_layer_rotated tile_id rotation => exact ⟨_, [], rfl, hs, fun t => rfl⟩
  | add_layer_full tile_id r g b a rotation => exact ⟨_, [], rfl, hs, fun t => rfl⟩
  | set_zoom zoom_level => exact ⟨_, [], rfl, hs, fun t => rfl⟩

theorem run_paired (D : Int) (calls : List (Bool × Op)) :
    ∀ (w : tile_display_window), w.saved_original_zoom_ = false →
      (∀ c ∈ calls, c.2.returns c.1 = true) →
      ∃ w1 events, run D calls w = some (w1, events) ∧ w1.saved_original_zoom_ = false ∧
        ∀ t, restores_paired none (events ++ t) = restores_paired none t := by
  induction calls with
  | nil => intro w hs _; exact ⟨w, [], rfl, hs, fun t => rfl⟩
  | cons c rest ih =>
      intro w hs hret
      obtain ⟨tc, op⟩ := c
      obtain ⟨w1, ev1, hc, hs1, hp1⟩ :=
        call_paired D tc w op hs (hret (tc, op) (List.mem_cons_self _ _))
      obtain ⟨w2, ev2, hr, hs2, hp2⟩ :=
        ih w1 hs1 (fun x hx => hret x (List.mem_cons_of_mem _ hx))
      refine ⟨w2, ev1 ++ ev2, ?_, hs2, ?_⟩
      · simp [run, hc, hr]
      · intro t
        rw [List.append_assoc, hp1, hp2]

/-- C7. Over the whole life of a window (construction, any sequence of public
calls that return, destruction) every capture made by `query` is followed by
exactly one write-back of the captured value before the next capture and
before the end, and no write-back happens without a capture; `clear` and the
destructor write nothing when no restore is owed. -/
theorem restore_once_per_capture (D : Int) (calls : List (Bool × Op)) (tilecontext_at_end : Bool)
    (h : ∀ c ∈ calls, c.2.returns c.1 = true) :
    (∃ trace, lifetime D calls tilecontext_at_end = some trace ∧
      restores_paired none trace = true) ∧
    (∀ (w : tile_display_window) (tc : Bool), w.saved_original_zoom_ = false →
      (w.clear tc).events = [] ∧ w.destroy tc = []) := by
  constructor
  · obtain ⟨w1, events, hr, hs, hp⟩ := run_paired D calls {} rfl h
    refine ⟨events ++ w1.destroy tilecontext_at_end, ?_, ?_⟩
    · simp [lifetime, hr]
    · rw [hp]
      simp [tile_display_window.destroy, hs, restores_paired]
  · intro w tc hs
    simp [tile_display_window.clear, tile_display_window.destroy, hs]

/-- The witness for C7: a window is filled, shown twice and cleared. -/
theorem restore_once_per_capture_witness :
    (∀ c ∈ [(true, Op.add_layer_id "mon_zombie"), (true, Op.set_zoom (F32.fin 1 1)),
        (true, Op.query ⟨800, 600, 80, 24⟩
          [⟨64, 64, 800, 600, true, "TIMEOUT"⟩, ⟨64, 64, 800, 600, true, "QUIT"⟩]),
        (false, Op.query ⟨800, 600, 80, 24⟩ []), (true, Op.clear),
        (true, Op.query ⟨800, 600, 80, 24⟩ [⟨32, 32, 800, 600, false, "CONFIRM"⟩])],
      c.2.returns c.1 = true) ∧
    (∃ trace, lifetime 16 [(true, Op.add_layer_id "mon_zombie"), (true, Op.set_zoom (F32.fin 1 1)),
        (true, Op.query ⟨800, 600, 80, 24⟩
          [⟨64, 64, 800, 600, true, "TIMEOUT"⟩, ⟨64, 64, 800, 600, true, "QUIT"⟩]),
        (false, Op.query ⟨800, 600, 80, 24⟩ []), (true, Op.clear),
        (true, Op.query ⟨800, 600, 80, 24⟩ [⟨32, 32, 800, 600, false, "CONFIRM"⟩])] true =
        some trace ∧ restores_paired none trace = true) :=
  ⟨by decide, (restore_once_per_capture 16 _ true (by decide)).1⟩

/-- A call that returns leaves the restore flag down when it found it down. -/
theorem call_flag_down (D : Int) (tc : Bool) (w w1 : tile_display_window) (op : Op)
    (events : List Event) (hs : w.saved_original_zoom_ = false)
    (h : op.call D tc w = some (w1, events)) : w1.saved_original_zoom_ = false := by
  cases op with
  | query entry inputs =>
      simp only [Op.call] at h
      cases hr : (w.query D tc entry inputs).returned with
      | none => rw [hr] at h; exact absurd h (by simp)
      | some a =>
          rw [hr] at h
          simp only [Option.some.injEq, Prod.mk.injEq] at h
          rw [← h.1]
          cases tc with
          | false => rw [query_null_tilecontext]; exact hs
          | true => rw [query_window, hr]; rfl
  | clear =>
      simp only [Op.call, Option.some.injEq, Prod.mk.injEq] at h
      rw [← h.1]
      simp [tile_display_window.clear, hs]
  | _ =>
      simp only [Op.call, Option.some.injEq, Prod.mk.injEq] at h
      rw [← h.1]
      exact hs

/-- Between the public calls of a window no restore is owed: after every
sequence of calls that return, the flag is down if it was down before. -/
theorem run_flag_down (D : Int) (calls : List (Bool × Op)) :
    ∀ (w0 w : tile_display_window) (events : List Event), w0.saved_original_zoom_ = false →
      run D calls w0 = some (w, events) → w.saved_original_zoom_ = false := by
  induction calls with
  | nil =>
      intro w0 w events hs h
      simp only [run, Option.some.injEq, Prod.mk.injEq] at h
      rw [← h.1]
      exact hs
  | cons c rest ih =>
      intro w0 w events hs h
      obtain ⟨tc, op⟩ := c
      simp only [run] at h
      cases hc : op.call D tc w0 with
      | none => rw [hc] at h; exact absurd h (by simp)
      | some r =>
          obtain ⟨w1, ev1⟩ := r
          rw [hc] at h
          simp only at h
          cases hr : run D rest w1 with
          | none => rw [hr] at h; exact absurd h (by simp)
          | some r2 =>
              obtain ⟨w2, later⟩ := r2
              rw [hr] at h
              simp only [Option.some.injEq, Prod.mk.injEq] at h
              rw [← h.1]
              exact ih w1 w2 later (call_flag_down D tc w0 w1 op ev1 hs hc) hr

/-- C10. From every state a window can be in (a new window after any sequence
of public calls that return, the renderer present or absent at each), `clear`
yields the state of a new window in its layer sequence (empty), zoom (`1.0`),
both axes (`-1`, `-1`) and restore flag (down); on any window at all, if a
restore is owed and a renderer is present, `clear` writes the captured scale
back and lowers the flag; a second `clear` changes neither the window nor the
renderer. -/
theorem clear_resets (D : Int) (calls : List (Bool × Op)) (w : tile_display_window)
    (events : List Event) (tc : Bool) (h : run D calls {} = some (w, events)) :
    (w.clear tc).window.layers_ = [] ∧
    (w.clear tc).window.zoom_ = F32.fin 1 0 ∧
    (w.clear tc).window.pos_x_ = -1 ∧ (w.clear tc).window.pos_y_ = -1 ∧
    (w.clear tc).window.saved_original_zoom_ = false ∧
    (w.clear tc).window.layers_ = ({} : tile_display_window).layers_ ∧
    (w.clear tc).window.zoom_ = ({} : tile_display_window).zoom_ ∧
    (w.clear tc).window.pos_x_ = ({} : tile_display_window).pos_x_ ∧
    (w.clear tc).window.pos_y_ = ({} : tile_display_window).pos_y_ ∧
    (w.clear tc).window.saved_original_zoom_ =
      ({} : tile_display_window).saved_original_zoom_ ∧
    (∀ (v : tile_display_window), v.saved_original_zoom_ = true →
      (v.clear true).events =
        [Event.set_draw_scale scale_write.restore (F32.toInt v.original_zoom_)] ∧
      (v.clear true).window.saved_original_zoom_ = false) ∧
    (∀ (tc2 : Bool), (w.clear tc).window.clear tc2 =
      { window := (w.clear tc).window, events := [] }) := by
  have hs : w.saved_original_zoom_ = false := run_flag_down D calls {} w events rfl h
  refine ⟨?_, ?_, ?_, ?_, ?_, ?_, ?_, ?_, ?_, ?_, ?_, ?_⟩
  all_goals first
    | (intro v hv; simp [tile_display_window.clear, hv])
    | (intro tc2; simp [tile_display_window.clear, hs])
    | simp [tile_display_window.clear, hs, DEFAULT_ZOOM]

/-- The witness for C10: a window is filled, placed, zoomed and shown, then
cleared. -/
theorem clear_resets_witness :
    ∃ (w : tile_display_window) (events : List Event),
      run 16 [(true, Op.add_layer_id "mon_zombie"), (true, Op.set_position 3 2),
        (true, Op.set_zoom (F32.fin 1 1)),
        (true, Op.query ⟨800, 600, 80, 24⟩ [⟨64, 64, 800, 600, true, "QUIT"⟩])] {} =
        some (w, events) ∧
      w.layers_ ≠ [] ∧ w.zoom_ ≠ F32.fin 1 0 ∧ w.pos_x_ ≠ -1 ∧
      (w.clear true).window.layers_ = [] ∧
      (w.clear true).window.zoom_ = F32.fin 1 0 ∧
      (w.clear true).window.pos_x_ = -1 ∧ (w.clear true).window.pos_y_ = -1 ∧
      (w.clear true).window.saved_original_zoom_ = false :=
  ⟨_, _, rfl, by decide, by decide, by decide,
    (clear_resets 16 [(true, Op.add_layer_id "mon_zombie"), (true, Op.set_position 3 2),
        (true, Op.set_zoom (F32.fin 1 1)),
        (true, Op.query ⟨800, 600, 80, 24⟩ [⟨64, 64, 800, 600, true, "QUIT"⟩])] _ _ true rfl).1,
    (clear_resets 16 [(true, Op.add_layer_id "mon_zombie"), (true, Op.set_position 3 2),
        (true, Op.set_zoom (F32.fin 1 1)),
        (true, Op.query ⟨800, 600, 80, 24⟩ [⟨64, 64, 800, 600, true, "QUIT"⟩])] _ _ true
        rfl).2.1,
    (clear_resets 16 [(true, Op.add_layer_id "mon_zombie"), (true, Op.set_position 3 2),
        (true, Op.set_zoom (F32.fin 1 1)),
        (true, Op.query ⟨800, 600, 80, 24⟩ [⟨64, 64, 800, 600, true, "QUIT"⟩])] _ _ true
        rfl).2.2.1,
    (clear_resets 16 [(true, Op.add_layer_id "mon_zombie"), (true, Op.set_position 3 2),
        (true, Op.set_zoom (F32.fin 1 1)),
        (true, Op.query ⟨800, 600, 80, 24⟩ [⟨64, 64, 800, 600, true, "QUIT"⟩])] _ _ true
        rfl).2.2.2.1,
    (clear_resets 16 [(true, Op.add_layer_id "mon_zombie"), (true, Op.set_position 3 2),
        (true, Op.set_zoom (F32.fin 1 1)),
        (true, Op.query ⟨800, 600, 80, 24⟩ [⟨64, 64, 800, 600, true, "QUIT"⟩])] _ _ true
        rfl).2.2.2.2.1⟩

/-- C1 fails on the code: with the renderer at draw scale `32` (and
`DEFAULT_TILESET_ZOOM = 16`), a new window shown once and closed with `"QUIT"`
leaves the renderer at draw scale `16`, not at the `32` it had before. -/
theorem query_leaves_default_scale :
    (({} : tile_display_window).query 16 true ⟨800, 600, 80, 24⟩
      [⟨32, 32, 800, 600, true, "QUIT"⟩]).returned = some "QUIT" ∧
    (cata_tiles.after ⟨some 32⟩
      (({} : tile_display_window).query 16 true ⟨800, 600, 80, 24⟩
        [⟨32, 32, 800, 600, true, "QUIT"⟩]).events).draw_scale = some 16 ∧
    (cata_tiles.mk (some 32)).draw_scale ≠ some 16 := by
  decide

/-- C2 as stated fails: at zoom `0.296875` (inside `[0.25, 4.0]`) and a baseline
of `16` the product is `4.75`; the scale pushed in the frame is `4`, while
`round( 4.75 )` is `5`. -/
theorem frame_scale_not_rounded :
    ((({} : tile_display_window).set_zoom (F32.fin 19 (-6))).zoom_ = F32.fin 19 (-6)) ∧
    (1 / 4 ≤ F32.rat 19 (-6) ∧ F32.rat 19 (-6) ≤ 4) ∧
    frame_scales ((({} : tile_display_window).set_zoom (F32.fin 19 (-6))).query 16 true
      ⟨800, 600, 80, 24⟩ [⟨32, 32, 800, 600, true, "QUIT"⟩]).events = [some 4] ∧
    round_scale (F32.rat 19 (-6)) 16 = 5 ∧
    frame_scales ((({} : tile_display_window).set_zoom (F32.fin 19 (-6))).query 16 true
      ⟨800, 600, 80, 24⟩ [⟨32, 32, 800, 600, true, "QUIT"⟩]).events ≠
      [some (round_scale (F32.rat 19 (-6)) 16)] := by
  have hr : round_scale (F32.rat 19 (-6)) 16 = 5 := by
    norm_num [round_scale, F32.rat, round_eq, Int.floor_eq_iff]
  have hf : frame_scales ((({} : tile_display_window).set_zoom (F32.fin 19 (-6))).query 16 true
      ⟨800, 600, 80, 24⟩ [⟨32, 32, 800, 600, true, "QUIT"⟩]).events = [some 4] := by
    decide
  refine ⟨by decide, ⟨by norm_num [F32.rat], by norm_num [F32.rat]⟩, hf, hr, ?_⟩
  rw [hf, hr]
  decide

/-! ### Rounding and truncation -/

theorem F32.bitLengthAux_le (fuel : Nat) :
    ∀ (n b : Nat), n < 2 ^ b → F32.bitLengthAux fuel n ≤ b := by
  induction fuel with
  | zero => intro n b _; simp [F32.bitLengthAux]
  | succ fuel ih =>
      intro n b h
      by_cases hn : n = 0
      · simp [F32.bitLengthAux, hn]
      · have hb : b ≠ 0 := by
          intro hb
          rw [hb] at h
          simp at h
          exact hn h
        obtain ⟨c, rfl⟩ := Nat.exists_eq_succ_of_ne_zero hb
        have h2 : n / 2 < 2 ^ c := by
          rw [Nat.div_lt_iff_lt_mul (by decide)]
          rw [Nat.pow_succ] at h
          exact h
        have := ih (n / 2) c h2
        simp only [F32.bitLengthAux, hn, if_false]
        omega

theorem F32.bitLength_le (n b : Nat) (h : n < 2 ^ b) : F32.bitLength n ≤ b :=
  F32.bitLengthAux_le n n b h

/-- Below `2 ^ 128` nothing overflows. -/
theorem F32.pack_fin (q : Nat) (e : Int) (h : (q : ℚ) * (2 : ℚ) ^ e < 2 ^ 128) :
    F32.pack false q e = F32.fin (q : Int) e := by
  have h2 : (0 : ℚ) < 2 := by norm_num
  have hpos : (0 : ℚ) < (2 : ℚ) ^ e := zpow_pos h2 e
  have hover : (if e ≤ 128 then decide (2 ^ (128 - e).toNat ≤ q) else decide (q ≠ 0)) = false := by
    by_cases he : e ≤ 128
    · simp only [he, if_true, decide_eq_false_iff_not, not_le]
      by_contra hc
      have hc1 : 2 ^ (128 - e).toNat ≤ q := Nat.le_of_not_lt hc
      have hc2 : ((2 : ℚ) ^ (128 - e).toNat) ≤ (q : ℚ) := by exact_mod_cast hc1
      have hk : (((128 - e).toNat : Int)) = 128 - e := Int.toNat_of_nonneg (by omega)
      have hsplit : (2 : ℚ) ^ (128 : ℕ) = (2 : ℚ) ^ (128 - e).toNat * (2 : ℚ) ^ e := by
        rw [← zpow_natCast (2 : ℚ) (128 - e).toNat, hk, ← zpow_add₀ (by norm_num : (2 : ℚ) ≠ 0)]
        rw [sub_add_cancel]
        norm_cast
      have : (2 : ℚ) ^ (128 : ℕ) ≤ (q : ℚ) * (2 : ℚ) ^ e := by
        rw [hsplit]
        exact mul_le_mul_of_nonneg_right hc2 hpos.le
      linarith
    · simp only [he, if_false, decide_eq_false_iff_not, not_not]
      by_contra hq
      have hq1 : (1 : ℚ) ≤ (q : ℚ) := by exact_mod_cast Nat.one_le_iff_ne_zero.mpr hq
      have hbig : (2 : ℚ) ^ (128 : ℕ) ≤ (2 : ℚ) ^ e := by
        rw [← zpow_natCast (2 : ℚ) 128]
        exact zpow_le_zpow_right₀ (by norm_num) (by push_cast; omega)
      have : (2 : ℚ) ^ e ≤ (q : ℚ) * (2 : ℚ) ^ e := le_mul_of_one_le_left hpos.le hq1
      linarith
  simp only [F32.pack, hover]
  simp

/-- Rounding is exact when the bits to drop are all zero: a mantissa below
`2 ^ (24 + j)` that is a multiple of `2 ^ j`, with an exponent in range. -/
theorem F32.round_exact (n : Nat) (e : Int) (j : Nat) (hbits : n < 2 ^ (24 + j))
    (hdvd : 2 ^ j ∣ n) (he : -149 ≤ e) (hlt : (n : ℚ) * (2 : ℚ) ^ e < 2 ^ 128) :
    ∃ (q : Nat) (e1 : Int),
      F32.round (n : Int) e = F32.fin (q : Int) e1 ∧ F32.rat q e1 = F32.rat n e := by
  have hneg : decide ((n : Int) < 0) = false := by simp
  have hbl : (F32.bitLength n : Int) ≤ 24 + j := by
    have := F32.bitLength_le n (24 + j) hbits
    omega
  have hkj : max ((F32.bitLength n : Int) - 24) (-149 - e) ≤ j := max_le (by omega) (by omega)
  unfold F32.round
  rw [Int.natAbs_ofNat]
  generalize max ((F32.bitLength n : Int) - 24) (-149 - e) = k at hkj
  by_cases hk0 : k ≤ 0
  · refine ⟨n, e, ?_, rfl⟩
    simp only [F32.roundAt, Int.natAbs_ofNat, hk0, if_true, hneg, F32.pack_fin n e hlt]
  · have hkpos : 0 < k := by omega
    obtain ⟨c, rfl⟩ : ∃ c : Nat, k = (c : Int) := ⟨k.toNat, (Int.toNat_of_nonneg hkpos.le).symm⟩
    have hcj : c ≤ j := by omega
    have hd : 2 ^ c ∣ n := Dvd.dvd.trans (Nat.pow_dvd_pow 2 hcj) hdvd
    have hmod : n % 2 ^ c = 0 := Nat.mod_eq_zero_of_dvd hd
    have hdpos : 0 < 2 ^ c := Nat.two_pow_pos c
    have hval : F32.rat ((n / 2 ^ c : Nat) : Int) (e + c) = F32.rat n e := by
      unfold F32.rat
      obtain ⟨t, rfl⟩ := hd
      rw [Nat.mul_div_cancel_left t hdpos, add_comm e, zpow_add₀ (by norm_num : (2 : ℚ) ≠ 0),
        zpow_natCast]
      push_cast
      ring
    have hlt2 : ((n / 2 ^ c : Nat) : ℚ) * (2 : ℚ) ^ (e + c) < 2 ^ 128 := by
      have h1 := hval
      unfold F32.rat at h1
      rw [Int.cast_natCast, Int.cast_natCast] at h1
      rw [h1]
      exact hlt
    refine ⟨n / 2 ^ c, e + c, ?_, hval⟩
    have hcond : ¬ (2 ^ c < 2 * 0 ∨ (2 * 0 = 2 ^ c ∧ n / 2 ^ c % 2 = 1)) := by
      omega
    simp only [F32.roundAt, Int.natAbs_ofNat, hk0, if_false, Int.toNat_ofNat, hmod, hcond,
      hneg, F32.pack_fin _ _ hlt2]
/-- The conversion to `int` of a non-negative float in range is its floor. -/
theorem F32.toInt_floor (m e : Int) (hm : 0 ≤ m) (hlt : F32.rat m e < 2 ^ 31) :
    F32.toInt (F32.fin m e) = some ⌊F32.rat m e⌋ := by
  have h2 : (0 : ℚ) < 2 := by norm_num
  have hnonneg : (0 : ℚ) ≤ F32.rat m e := by
    unfold F32.rat
    exact mul_nonneg (by exact_mod_cast hm) (zpow_pos h2 e).le
  have hfl0 : 0 ≤ ⌊F32.rat m e⌋ := Int.floor_nonneg.mpr hnonneg
  have hfl1 : ⌊F32.rat m e⌋ < 2 ^ 31 := by
    rw [Int.floor_lt]
    exact_mod_cast hlt
  have ht : (if 0 ≤ e then m * 2 ^ e.toNat else m.tdiv (2 ^ (-e).toNat)) = ⌊F32.rat m e⌋ := by
    by_cases he : 0 ≤ e
    · have hk : ((e.toNat : Int)) = e := Int.toNat_of_nonneg he
      have hr : F32.rat m e = ((m * 2 ^ e.toNat : Int) : ℚ) := by
        unfold F32.rat
        conv_lhs => rw [← hk]
        rw [zpow_natCast]
        push_cast
        ring
      rw [if_pos he, hr, Int.floor_intCast]
    · have hk : (((-e).toNat : Int)) = -e := Int.toNat_of_nonneg (by omega)
      have hr : F32.rat m e = (m : ℚ) / (((2 ^ (-e).toNat : Nat)) : ℚ) := by
        unfold F32.rat
        have he2 : e = -(((-e).toNat : Int)) := by omega
        conv_lhs => rw [he2]
        rw [zpow_neg, zpow_natCast]
        push_cast
        ring
      rw [if_neg he, hr, Rat.floor_intCast_div_natCast,
        Int.tdiv_eq_ediv hm (by positivity)]
      push_cast
      rfl
  simp only [F32.toInt, ht]
  rw [if_pos ⟨by omega, hfl1⟩]

/-- A power of two up to `2 ^ 23` converts to `float` as it is. -/
theorem F32.ofInt_two_pow (j : Nat) (hj : j ≤ 23) :
    F32.ofInt (2 ^ j) = F32.fin (2 ^ j) 0 := by
  have hlt : 2 ^ j < 2 ^ 24 := Nat.pow_lt_pow_right (by decide) (by omega)
  have hbl := F32.bitLength_le (2 ^ j) 24 hlt
  have hk0 : max ((F32.bitLength (2 ^ j) : Int) - 24) (-149 - 0) ≤ 0 := max_le (by omega) (by omega)
  have hcast : ((2 : Int) ^ j) = ((2 ^ j : Nat) : Int) := by push_cast; rfl
  have hq : ((2 ^ j : Nat) : ℚ) * (2 : ℚ) ^ (0 : Int) < 2 ^ 128 := by
    have h1 : ((2 ^ j : Nat) : ℚ) < 2 ^ 24 := by exact_mod_cast hlt
    have h2 : (2 : ℚ) ^ 24 < 2 ^ 128 := by norm_num
    simp only [zpow_zero, mul_one]
    linarith
  have hneg : decide (((2 ^ j : Nat) : Int) < 0) = false := by simp
  unfold F32.ofInt F32.round
  rw [hcast, Int.natAbs_ofNat]
  simp only [F32.roundAt, Int.natAbs_ofNat, hk0, if_true, hneg, F32.pack_fin _ _ hq]

theorem frame_scales_append (a b : List Event) :
    frame_scales (a ++ b) = frame_scales a ++ frame_scales b := by
  induction a with
  | nil => rfl
  | cons ev a ih =>
      cases ev with
      | set_draw_scale site scale => cases site <;> simp [frame_scales, ih]
      | _ => simp [frame_scales, ih]

theorem frame_scales_layers (ls : List tile_display_layer) (p : point) :
    frame_scales (ls.map (fun l => layer_draw_call l p)) = [] := by
  induction ls with
  | nil => rfl
  | cons l ls ih => simp [layer_draw_call, frame_scales] at ih ⊢; exact ih

/-- The scales pushed by a `query`: one per iteration run, each the conversion
to `int` of the float product `zoom_ * DEFAULT_TILESET_ZOOM`. -/
theorem query_frame_scales (D : Int) (w : tile_display_window) (entry : query_entry)
    (inputs : List frame_input) :
    frame_scales (w.query D true entry inputs).events =
      (frames_run inputs).map (fun _ => F32.toInt (F32.mul w.zoom_ (F32.ofInt D))) := by
  rw [query_events]
  simp only [frame_scales_append]
  have h1 : frame_scales
      (if w.saved_original_zoom_ then [] else [Event.save_original_zoom (F32.ofInt D)]) = [] := by
    cases w.saved_original_zoom_ <;> rfl
  have h2 : frame_scales query_setup = [] := rfl
  have h3 : frame_scales
      (if (w.query D true entry inputs).returned.isSome then
        [Event.set_draw_scale scale_write.restore
          (F32.toInt (if w.saved_original_zoom_ then w.original_zoom_ else F32.ofInt D))]
       else []) = [] := by
    cases (w.query D true entry inputs).returned.isSome <;> rfl
  rw [h1, h2, h3]
  simp only [List.nil_append, List.append_nil]
  induction frames_run inputs with
  | nil => rfl
  | cons i rest ih =>
      rw [List.flatMap_cons, frame_scales_append, ih, query_frame_eq]
      simp [frame_scales, frame_scales_append, frame_scales_layers]

/-- The product of a float in `[0.25, 4.0]` with a power-of-two baseline is
exact, and its conversion to `int` is the floor of the exact product. -/
theorem F32.toInt_mul_two_pow (m e : Int) (j : Nat) (hm : m.natAbs < 2 ^ 24) (he : -149 ≤ e)
    (hlo : 1 / 4 ≤ F32.rat m e) (hhi : F32.rat m e ≤ 4) (hj : j ≤ 23) :
    F32.toInt (F32.mul (F32.fin m e) (F32.ofInt (2 ^ j))) =
      some ⌊F32.rat m e * (((2 ^ j : Int)) : ℚ)⌋ := by
  have h2 : (0 : ℚ) < 2 := by norm_num
  have hpos : (0 : ℚ) < (2 : ℚ) ^ e := zpow_pos h2 e
  have hm0 : 0 ≤ m := by
    by_contra hneg
    have hmq : (m : ℚ) < 0 := by exact_mod_cast (not_le.mp hneg)
    have : F32.rat m e < 0 := mul_neg_of_neg_of_pos hmq hpos
    linarith
  obtain ⟨n, rfl⟩ := Int.eq_ofNat_of_zero_le hm0
  rw [Int.natAbs_ofNat] at hm
  have hjq : ((2 : ℚ) ^ j) ≤ 2 ^ 23 := pow_le_pow_right₀ (by norm_num) hj
  have hjpos : (0 : ℚ) < (2 : ℚ) ^ j := pow_pos h2 j
  have hprod : F32.rat ((n * 2 ^ j : Nat) : Int) e = F32.rat n e * (((2 ^ j : Int)) : ℚ) := by
    unfold F32.rat
    push_cast
    ring
  have hbound : F32.rat n e * (((2 ^ j : Int)) : ℚ) ≤ 4 * 2 ^ 23 := by
    push_cast
    exact mul_le_mul hhi hjq hjpos.le (by norm_num)
  have hbits : n * 2 ^ j < 2 ^ (24 + j) := by
    rw [Nat.pow_add]
    exact Nat.mul_lt_mul_of_pos_right hm (Nat.two_pow_pos j)
  have hlt : ((n * 2 ^ j : Nat) : ℚ) * (2 : ℚ) ^ e < 2 ^ 128 := by
    have h1 := hprod
    unfold F32.rat at h1
    rw [Int.cast_natCast, Int.cast_natCast] at h1
    rw [h1]
    have : (4 : ℚ) * 2 ^ 23 < 2 ^ 128 := by norm_num
    unfold F32.rat at hbound
    rw [Int.cast_natCast] at hbound
    linarith
  obtain ⟨q, e1, hround, hval⟩ :=
    F32.round_exact (n * 2 ^ j) e j hbits (Dvd.intro_left n rfl) he hlt
  have hmul : F32.mul (F32.fin (n : Int) e) (F32.ofInt (2 ^ j)) = F32.fin (q : Int) e1 := by
    rw [F32.ofInt_two_pow j hj]
    simp only [F32.mul, add_zero]
    rw [← hround]
    congr 1
    push_cast
    rfl
  rw [hmul, ← hprod, ← hval]
  apply F32.toInt_floor
  · exact Int.ofNat_nonneg q
  · rw [hval, hprod]
    have : (4 : ℚ) * 2 ^ 23 < 2 ^ 31 := by norm_num
    linarith

/-- C2, amended. On every frame rendered by `query` the draw scale pushed is
the single-precision product `zoom * baseline_unit` converted to `int`, that is
truncated, not rounded: whenever the product is a non-negative float below
`2 ^ 31` the scale is its floor, and for a zoom in `[0.25, 4.0]` and a
power-of-two baseline (such as `16`) the product is exact, so the scale is
`floor(zoom * baseline_unit)`. -/
theorem frame_scale_truncates (D : Int) (w : tile_display_window) (entry : query_entry)
    (inputs : List frame_input) :
    frame_scales (w.query D true entry inputs).events =
      (frames_run inputs).map (fun _ => F32.toInt (F32.mul w.zoom_ (F32.ofInt D))) ∧
    (∀ m e : Int, F32.mul w.zoom_ (F32.ofInt D) = F32.fin m e → 0 ≤ m →
      F32.rat m e < 2 ^ 31 →
      F32.toInt (F32.mul w.zoom_ (F32.ofInt D)) = some ⌊F32.rat m e⌋) ∧
    (∀ (m e : Int) (j : Nat), w.zoom_ = F32.fin m e → m.natAbs < 2 ^ 24 → -149 ≤ e →
      1 / 4 ≤ F32.rat m e → F32.rat m e ≤ 4 → j ≤ 23 → D = 2 ^ j →
      F32.toInt (F32.mul w.zoom_ (F32.ofInt D)) = some ⌊F32.rat m e * (D : ℚ)⌋) := by
  refine ⟨query_frame_scales D w entry inputs, ?_, ?_⟩
  · intro m e hmul hm hlt
    rw [hmul]
    exact F32.toInt_floor m e hm hlt
  · intro m e j hz hm he hlo hhi hj hD
    rw [hz, hD]
    exact F32.toInt_mul_two_pow m e j hm he hlo hhi hj

/-- The witness for C2: at zoom `0.296875` and baseline `16` the frame scale is
`floor( 4.75 )`. -/
theorem frame_scale_truncates_witness :
    frame_scales ((({} : tile_display_window).set_zoom (F32.fin 19 (-6))).query 16 true
      ⟨800, 600, 80, 24⟩ [⟨32, 32, 800, 600, true, "QUIT"⟩]).events =
      [F32.toInt (F32.mul (({} : tile_display_window).set_zoom (F32.fin 19 (-6))).zoom_
        (F32.ofInt 16))] ∧
    F32.toInt (F32.mul (({} : tile_display_window).set_zoom (F32.fin 19 (-6))).zoom_
      (F32.ofInt 16)) = some ⌊F32.rat 19 (-6) * ((16 : Int) : ℚ)⌋ :=
  ⟨(frame_scale_truncates 16 (({} : tile_display_window).set_zoom (F32.fin 19 (-6)))
      ⟨800, 600, 80, 24⟩ [⟨32, 32, 800, 600, true, "QUIT"⟩]).1,
   (frame_scale_truncates 16 (({} : tile_display_window).set_zoom (F32.fin 19 (-6)))
      ⟨800, 600, 80, 24⟩ [⟨32, 32, 800, 600, true, "QUIT"⟩]).2.2 19 (-6) 4 (by decide)
      (by decide) (by decide) (by norm_num [F32.rat]) (by norm_num [F32.rat]) (by decide)
      (by decide)⟩


end TileDisplay
